import Mathlib

/-!
Shallow embedding of `asyncssh/known_hosts.py`, the parser and matcher for
SSH known_hosts files.

Byte strings from the Python source are modelled as `List Nat` (one natural
number per byte).  External library collaborators are modelled as follows:

* `fnmatch.fnmatch` (POSIX byte semantics, case preserving) is embedded as
  `globMatch`, a glob matcher compiled through an explicit token list;
* `ipaddress.ip_network` parsing is a parameter `ipn : Bytes → Option IPNetwork`
  of the definitions that use it (with `ip_network_model`, an executable IPv4
  instance, used by concrete witnesses); `in`-membership is `IPNetwork.contains`;
* `hmac.new(salt, msg, sha1).digest()` is a parameter
  `hmacSha1 : Bytes → Bytes → Bytes`;
* `binascii.a2b_base64` is a parameter `a2b : Bytes → Option Bytes`, with the
  executable instance `a2b_base64_model` (and encoder `b2a_base64_model`);
* `import_public_key` is a parameter `ik : Bytes → Option K` (`none` models
  `KeyImportError`).

Fallible Python constructors and parsers become `Except`/`Option` values.
-/

/-- Byte strings are lists of natural numbers, one per byte (0–255). -/
abbrev Bytes := List Nat

/-- ASCII whitespace bytes, as recognized by Python `bytes.strip` and
whitespace `bytes.split`. -/
def isSp (b : Nat) : Bool :=
  b == 32 || b == 9 || b == 10 || b == 13 || b == 11 || b == 12

/-- Python `bytes.strip()`: drop leading and trailing ASCII whitespace. -/
def stripB (l : Bytes) : Bytes :=
  ((l.dropWhile isSp).reverse.dropWhile isSp).reverse

/-- Python `bytes.split(sep)` for a one-byte separator `sep`: split on every
occurrence, keeping empty pieces (so the result is always nonempty). -/
def splitSep (sep : Nat) : Bytes → List Bytes
  | [] => [[]]
  | c :: rest =>
    match splitSep sep rest with
    | [] => [[]]
    | g :: gs => if c == sep then [] :: g :: gs else (c :: g) :: gs

/-- Python `bytes.split(None, maxsplit)`: split on runs of ASCII whitespace,
dropping leading whitespace, with at most `m` splits; once `m` splits were
made the remainder (with its leading whitespace dropped) is the final token. -/
def splitWsMax (m : Nat) (l : Bytes) : List Bytes :=
  let l1 := l.dropWhile isSp
  if l1 = [] then []
  else
    match m with
    | 0 => [l1]
    | m' + 1 =>
      l1.takeWhile (fun b => !isSp b) ::
        splitWsMax m' (l1.dropWhile (fun b => !isSp b))

/-- Python `bytes.splitlines()`: split on LF, CR, and CRLF, with no trailing
empty line when the input ends in a line break. -/
def splitLinesB : Bytes → List Bytes
  | [] => []
  | 13 :: 10 :: rest => [] :: splitLinesB rest
  | 13 :: rest => [] :: splitLinesB rest
  | 10 :: rest => [] :: splitLinesB rest
  | c :: rest =>
    match splitLinesB rest with
    | [] => [[c]]
    | g :: gs => (c :: g) :: gs

/-- The bracket escaping performed by `_WildcardPattern.__init__`: each `[`
byte becomes `[[]` and each `]` byte becomes `[]]`, so that `fnmatch` treats
them literally; every other byte is passed through unchanged. -/
def escapeBrackets : Bytes → Bytes
  | [] => []
  | b :: rest =>
    if b = 91 then 91 :: 91 :: 93 :: escapeBrackets rest
    else if b = 93 then 91 :: 93 :: 93 :: escapeBrackets rest
    else b :: escapeBrackets rest

/-- Tokens of a compiled glob pattern: `star` is `*`, `anyOne` is `?`,
`cls` is a (possibly negated) bracket character class given by closed byte
ranges, and `lit` is a literal byte. -/
inductive GlobTok where
  | star : GlobTok
  | anyOne : GlobTok
  | cls (neg : Bool) (items : List (Nat × Nat)) : GlobTok
  | lit (b : Nat) : GlobTok
deriving DecidableEq

/-- Scan a bracket-class body up to the closing `]`, returning the content
and the bytes after the `]`; `none` when no closing `]` exists. -/
def scanClassBody : Bytes → Option (Bytes × Bytes)
  | [] => none
  | c :: rest =>
    if c = 93 then some ([], rest)
    else
      match scanClassBody rest with
      | some (cnt, r) => some (c :: cnt, r)
      | none => none

/-- Scan a class body where, as in `fnmatch.translate`, a `]` in first
position is part of the content rather than the terminator. -/
def scanClassStart (q : Bytes) : Option (Bytes × Bytes) :=
  if q.head? = some 93 then
    match scanClassBody (q.drop 1) with
    | some (cnt, r) => some (93 :: cnt, r)
    | none => none
  else scanClassBody q

/-- Parse the part of a glob pattern following a `[`: an optional leading `!`
negation, then the class content up to the closing `]`.  Returns the negation
flag, the raw content and the rest of the pattern, or `none` when the class
is unterminated (in which case `fnmatch` treats the `[` as a literal). -/
def parseClass (p : Bytes) : Option (Bool × Bytes × Bytes) :=
  if p.head? = some 33 then
    match scanClassStart (p.drop 1) with
    | some (cnt, r) => some (true, cnt, r)
    | none => none
  else
    match scanClassStart p with
    | some (cnt, r) => some (false, cnt, r)
    | none => none

/-- Interpret raw class content as byte ranges: `a-b` between two bytes is a
range, every other byte (including `-` in first or last position) stands for
itself. -/
def classItems : Bytes → List (Nat × Nat)
  | [] => []
  | a :: 45 :: b :: rest => (a, b) :: classItems rest
  | a :: rest => (a, a) :: classItems rest

/-- Membership of a byte in a list of class ranges. -/
def inItems (c : Nat) (items : List (Nat × Nat)) : Bool :=
  items.any (fun i => i.1 ≤ c && c ≤ i.2)

/-- Fuelled glob-pattern tokenizer (model of `fnmatch.translate`): the fuel
only bounds the recursion and never runs out when it is at least the pattern
length (`tokenizeF_congr`). -/
def tokenizeF : Nat → Bytes → List GlobTok
  | 0, _ => []
  | _ + 1, [] => []
  | f + 1, c :: rest =>
    if c = 42 then .star :: tokenizeF f rest
    else if c = 63 then .anyOne :: tokenizeF f rest
    else if c = 91 then
      match parseClass rest with
      | some (neg, cnt, r) => .cls neg (classItems cnt) :: tokenizeF f r
      | none => .lit 91 :: tokenizeF f rest
    else .lit c :: tokenizeF f rest

/-- Compile a glob pattern into its token list. -/
def tokenize (p : Bytes) : List GlobTok := tokenizeF p.length p

/-- Fuelled matcher of a glob token list against a byte string; the fuel
never runs out when it exceeds the combined lengths (`matchToksF_congr`). -/
def matchToksF : Nat → List GlobTok → Bytes → Bool
  | 0, _, _ => false
  | _ + 1, [], v => v.isEmpty
  | f + 1, .star :: ts, [] => matchToksF f ts []
  | f + 1, .star :: ts, x :: vs =>
    matchToksF f ts (x :: vs) || matchToksF f (.star :: ts) vs
  | _ + 1, .anyOne :: _, [] => false
  | f + 1, .anyOne :: ts, _ :: vs => matchToksF f ts vs
  | _ + 1, .cls _ _ :: _, [] => false
  | f + 1, .cls neg items :: ts, c :: vs =>
    (inItems c items != neg) && matchToksF f ts vs
  | _ + 1, .lit _ :: _, [] => false
  | f + 1, .lit b :: ts, c :: vs => (c == b) && matchToksF f ts vs

/-- Match a compiled glob token list against a byte string. -/
def matchToks (ts : List GlobTok) (v : Bytes) : Bool :=
  matchToksF (ts.length + v.length + 1) ts v

/-- Model of `fnmatch.fnmatch(value, pattern)` on POSIX (where
`os.path.normcase` is the identity, so matching is case sensitive on the raw
bytes): `*` matches any byte sequence, `?` any single byte, `[...]` a
character class, everything else literally. -/
def globMatch (p : Bytes) (v : Bytes) : Bool :=
  matchToks (tokenize p) v

/-- Model of an `ipaddress` address object: IP version (4 or 6) and the
numeric address value. -/
structure IPAddr where
  version : Nat
  val : Nat
deriving DecidableEq

/-- Model of an `ipaddress` network object: IP version, network address and
prefix length. -/
structure IPNetwork where
  version : Nat
  netAddr : Nat
  prefixLen : Nat
deriving DecidableEq

/-- Address width in bits for an IP version. -/
def ipBits (version : Nat) : Nat := if version == 4 then 32 else 128

/-- Model of the `ipaddress` membership test `ip in network`: same IP
version and equal upper `prefixLen` bits. -/
def IPNetwork.contains (n : IPNetwork) (i : IPAddr) : Bool :=
  i.version == n.version &&
    i.val / 2 ^ (ipBits n.version - n.prefixLen) ==
      n.netAddr / 2 ^ (ipBits n.version - n.prefixLen)

/-- `_WildcardPattern`: a host pattern with `*` and `?` wildcards; the stored
field is the bracket-escaped pattern built by `__init__`. -/
structure _WildcardPattern where
  pattern : Bytes
deriving DecidableEq

/-- `_WildcardPattern.__init__`: store the pattern with `[` and `]` escaped
for `fnmatch`. -/
def _WildcardPattern.init (p : Bytes) : _WildcardPattern :=
  ⟨escapeBrackets p⟩

/-- `_WildcardPattern._match`: `fnmatch(value, self._pattern)`. -/
def _WildcardPattern.matchVal (w : _WildcardPattern) (value : Bytes) : Bool :=
  globMatch w.pattern value

/-- `_WildcardPattern.matches`: `(host and self._match(host)) or (addr and
self._match(addr))`, with Python byte-string truthiness rendered as a
nonemptiness test. -/
def _WildcardPattern.matches (w : _WildcardPattern)
    (host addr : Bytes) (_ip : Option IPAddr) : Bool :=
  (!host.isEmpty && w.matchVal host) || (!addr.isEmpty && w.matchVal addr)

/-- `_CIDRPattern`: a literal IPv4/v6 address or CIDR-style subnet pattern,
holding the parsed network. -/
structure _CIDRPattern where
  network : IPNetwork
deriving DecidableEq

/-- `_CIDRPattern.matches`: `ip and (ip in self._network)`; `ip` is falsy
exactly when the caller passed no parsed IP. -/
def _CIDRPattern.matches (c : _CIDRPattern)
    (_host _addr : Bytes) (ip : Option IPAddr) : Bool :=
  match ip with
  | none => false
  | some i => c.network.contains i

/-- One pattern piece of a `HostList`: either a CIDR pattern or a wildcard
pattern. -/
inductive HostPattern where
  | wildcard (w : _WildcardPattern) : HostPattern
  | cidr (c : _CIDRPattern) : HostPattern
deriving DecidableEq

/-- Dispatch `matches` over the two pattern kinds. -/
def HostPattern.matches : HostPattern → Bytes → Bytes → Option IPAddr → Bool
  | .wildcard w, h, a, i => w.matches h a i
  | .cidr c, h, a, i => c.matches h a i

/-- The body of the `try`/`except` in `HostList.__init__`: try
`_CIDRPattern(p)` first (the parameter `ipn` models `ip_network` applied to
the ASCII-decoded pattern, `none` covering both `ValueError` and
`UnicodeDecodeError`), and fall back to `_WildcardPattern(p)` on failure. -/
def mkHostPattern (ipn : Bytes → Option IPNetwork) (p : Bytes) : HostPattern :=
  match ipn p with
  | some n => .cidr ⟨n⟩
  | none => .wildcard (_WildcardPattern.init p)

/-- `HostList`: a plaintext host list entry, with positive and negated
pattern collections. -/
structure HostList where
  pos_patterns : List HostPattern
  neg_patterns : List HostPattern
deriving DecidableEq

/-- The loop of `HostList.__init__` over the comma-separated pieces: strip a
leading `!` to decide negation, build the pattern, and append it to the
positive or negative collection (order preserved). -/
def HostList.initGo (ipn : Bytes → Option IPNetwork) : List Bytes → HostList
  | [] => ⟨[], []⟩
  | p :: rest =>
    let hl := HostList.initGo ipn rest
    if p.head? = some 33 then
      ⟨hl.pos_patterns, mkHostPattern ipn (p.drop 1) :: hl.neg_patterns⟩
    else
      ⟨mkHostPattern ipn p :: hl.pos_patterns, hl.neg_patterns⟩

/-- `HostList.__init__`: split the pattern field on `,` and process each
piece. -/
def HostList.init (ipn : Bytes → Option IPNetwork) (pattern : Bytes) :
    HostList :=
  HostList.initGo ipn (splitSep 44 pattern)

/-- `HostList.matches`: any positive pattern matches and no negated pattern
matches. -/
def HostList.matches (hl : HostList)
    (host addr : Bytes) (ip : Option IPAddr) : Bool :=
  hl.pos_patterns.any (fun p => p.matches host addr ip) &&
    !hl.neg_patterns.any (fun p => p.matches host addr ip)

/-- `HashedHost`: a hashed host entry holding the decoded salt and digest. -/
structure HashedHost where
  salt : Bytes
  hosthash : Bytes
deriving DecidableEq

/-- The errors a known_hosts line can fail with; the spec's names are
`InvalidEntry`, `InvalidMarker`, `InvalidHashFormat` and
`UnsupportedHashType` (the Python code raises `ValueError` with a distinct
message in each case). -/
inductive ParseErr where
  | invalidEntry : ParseErr
  | invalidMarker : ParseErr
  | invalidHashFormat : ParseErr
  | unsupportedHashType : ParseErr
deriving DecidableEq

/-- `HashedHost._HMAC_SHA1_MAGIC = b'1'`. -/
def hmacSha1Magic : Bytes := [49]

/-- `HashedHost.__init__`: split `pattern[1:]` on `|` into exactly three
parts, base64-decode salt and digest (any of these failing raises the
"Invalid known hosts hash entry" error), then check the magic (an
unsupported magic raises the "Invalid known hosts hash type" error).  The
parameter `a2b` models `binascii.a2b_base64`, `none` modelling
`binascii.Error`/`ValueError`. -/
def HashedHost.init (a2b : Bytes → Option Bytes) (pattern : Bytes) :
    Except ParseErr HashedHost :=
  match splitSep 124 (pattern.drop 1) with
  | [magic, saltB, hashB] =>
    match a2b saltB, a2b hashB with
    | some s, some h =>
      if magic = hmacSha1Magic then .ok ⟨s, h⟩
      else .error .unsupportedHashType
    | _, _ => .error .invalidHashFormat
  | _ => .error .invalidHashFormat

/-- `HashedHost._match`: `hmac.new(self._salt, value, sha1).digest() ==
self._hosthash`, with the HMAC-SHA1 computation abstracted as `hmacSha1`. -/
def HashedHost.matchVal (hmacSha1 : Bytes → Bytes → Bytes)
    (hh : HashedHost) (value : Bytes) : Bool :=
  hmacSha1 hh.salt value == hh.hosthash

/-- `HashedHost.matches`: `(host and self._match(host)) or (addr and
self._match(addr))`. -/
def HashedHost.matches (hmacSha1 : Bytes → Bytes → Bytes) (hh : HashedHost)
    (host addr : Bytes) (_ip : Option IPAddr) : Bool :=
  (!host.isEmpty && hh.matchVal hmacSha1 host) ||
    (!addr.isEmpty && hh.matchVal hmacSha1 addr)

/-- The matcher stored in an entry: a `HostList` for plaintext pattern
fields, a `HashedHost` for fields starting with `|`. -/
inductive EntryPattern where
  | hostList (hl : HostList) : EntryPattern
  | hashed (hh : HashedHost) : EntryPattern
deriving DecidableEq

/-- Dispatch `matches` over the two entry pattern kinds. -/
def EntryPattern.matches (ep : EntryPattern) (hmacSha1 : Bytes → Bytes → Bytes)
    (host addr : Bytes) (ip : Option IPAddr) : Bool :=
  match ep with
  | .hostList hl => hl.matches host addr ip
  | .hashed hh => hh.matches hmacSha1 host addr ip

/-- One parsed known_hosts entry: matcher, optional marker bytes, and the
imported public key (of abstract type `K`). -/
structure Entry (K : Type) where
  pattern : EntryPattern
  marker : Option Bytes
  key : K
deriving DecidableEq

/-- The marker bytes `b'cert-authority'`. -/
def certAuthorityB : Bytes := [99, 101, 114, 116, 45, 97, 117, 116, 104, 111, 114, 105, 116, 121]

/-- The marker bytes `b'revoked'`. -/
def revokedB : Bytes := [114, 101, 118, 111, 107, 101, 100]

/-- The `marker not in (None, b'cert-authority', b'revoked')` check. -/
def markerOk (m : Option Bytes) : Bool :=
  m == none || m == some certAuthorityB || m == some revokedB

/-- Token split of one known_hosts line, as in `_parse_entries`: lines
starting with `@` split into marker, pattern and key material (at most two
whitespace splits), other lines into pattern and key material; a wrong token
count is the "Invalid known hosts entry" error. -/
def splitEntryLine (line : Bytes) : Except ParseErr (Option Bytes × Bytes × Bytes) :=
  if line.head? = some 64 then
    match splitWsMax 2 (line.drop 1) with
    | [m, p, k] => .ok (some m, p, k)
    | _ => .error .invalidEntry
  else
    match splitWsMax 1 line with
    | [p, k] => .ok (none, p, k)
    | _ => .error .invalidEntry

/-- The body of the `_parse_entries` loop for one raw line: strip it, skip
blank lines and comments (`.ok none`), split it, validate the marker, build
the matcher (hashed when the pattern field starts with `|`), and import the
key — an unrecognized key (`ik` returning `none`, modelling
`KeyImportError`) skips the line. -/
def parseLine {K : Type} (ipn : Bytes → Option IPNetwork)
    (a2b : Bytes → Option Bytes) (ik : Bytes → Option K)
    (raw : Bytes) : Except ParseErr (Option (Entry K)) :=
  let line := stripB raw
  if line = [] then .ok none
  else if line.head? = some 35 then .ok none
  else
    match splitEntryLine line with
    | .error e => .error e
    | .ok (marker, pattern, key) =>
      if !markerOk marker then .error .invalidMarker
      else
        match
          (if pattern.head? = some 124 then
            (HashedHost.init a2b pattern).map .hashed
          else
            .ok (.hostList (HostList.init ipn pattern)) :
            Except ParseErr EntryPattern)
        with
        | .error e => .error e
        | .ok ep =>
          match ik key with
          | none => .ok none
          | some k => .ok (some ⟨ep, marker, k⟩)

/-- The `_parse_entries` loop over the split lines, accumulating entries in
file order; the first failing line aborts the whole parse. -/
def parseLines {K : Type} (ipn : Bytes → Option IPNetwork)
    (a2b : Bytes → Option Bytes) (ik : Bytes → Option K) :
    List Bytes → Except ParseErr (List (Entry K))
  | [] => .ok []
  | raw :: rest =>
    match parseLine ipn a2b ik raw with
    | .error e => .error e
    | .ok none => parseLines ipn a2b ik rest
    | .ok (some e) =>
      match parseLines ipn a2b ik rest with
      | .error err => .error err
      | .ok es => .ok (e :: es)

/-- `_parse_entries`: split the file bytes into lines and parse them. -/
def _parse_entries {K : Type} (ipn : Bytes → Option IPNetwork)
    (a2b : Bytes → Option Bytes) (ik : Bytes → Option K)
    (known_hosts : Bytes) : Except ParseErr (List (Entry K)) :=
  parseLines ipn a2b ik (splitLinesB known_hosts)

/-- Modelled from the spec: `DEFAULT_PORT` from the repository's constants
module (not under `src/`), the protocol default SSH port. -/
def DEFAULT_PORT : Nat := 22

/-- Decimal ASCII rendering of a natural number (fuelled helper). -/
def natToDecF : Nat → Nat → Bytes
  | 0, _ => []
  | f + 1, n => if n < 10 then [48 + n] else natToDecF f (n / 10) ++ [48 + n % 10]

/-- Decimal ASCII rendering of a natural number, as `'{}'.format(port)`. -/
def natToDec (n : Nat) : Bytes := natToDecF (n + 1) n

/-- The `'[{}]:{}'.format(value, port)` rewrite of `_match_entries`, at the
UTF-8 byte level. -/
def bracketed (value : Bytes) (port : Nat) : Bytes :=
  91 :: value ++ 93 :: 58 :: natToDec port

/-- The classification loop of `_match_entries`: each matching entry
contributes its key to exactly one of the three lists, by marker. -/
def matchGo {K : Type} (hmacSha1 : Bytes → Bytes → Bytes)
    (host addr : Bytes) (ip : Option IPAddr) :
    List (Entry K) → List K × List K × List K
  | [] => ([], [], [])
  | e :: rest =>
    let r := matchGo hmacSha1 host addr ip rest
    if e.pattern.matches hmacSha1 host addr ip then
      if e.marker = some revokedB then (r.1, r.2.1, e.key :: r.2.2)
      else if e.marker = some certAuthorityB then (r.1, e.key :: r.2.1, r.2.2)
      else (e.key :: r.1, r.2.1, r.2.2)
    else r

/-- `_match_entries`: derive `addr` from the optional parsed IP (`ipStr`
models `str(ip)`), rewrite host and nonempty addr to bracketed `[x]:port`
form when the port is not the default, and classify matching entries. -/
def _match_entries {K : Type} (hmacSha1 : Bytes → Bytes → Bytes)
    (ipStr : IPAddr → Bytes) (entries : List (Entry K)) (host : Bytes)
    (ip : Option IPAddr) (port : Nat) : List K × List K × List K :=
  let addr : Bytes := match ip with
    | some i => ipStr i
    | none => []
  let host' := if port ≠ DEFAULT_PORT then bracketed host port else host
  let addr' := if port ≠ DEFAULT_PORT && !addr.isEmpty then bracketed addr port else addr
  matchGo hmacSha1 host' addr' ip entries

/-- `match_known_hosts` on raw file bytes: parse the entries, run the match
pass, and when a non-default port yielded neither host keys nor CA keys,
return the result of a second pass at the default port instead. -/
def match_known_hosts {K : Type} (ipn : Bytes → Option IPNetwork)
    (a2b : Bytes → Option Bytes) (ik : Bytes → Option K)
    (hmacSha1 : Bytes → Bytes → Bytes) (ipStr : IPAddr → Bytes)
    (known_hosts : Bytes) (host : Bytes) (ip : Option IPAddr) (port : Nat) :
    Except ParseErr (List K × List K × List K) :=
  match _parse_entries ipn a2b ik known_hosts with
  | .error e => .error e
  | .ok entries =>
    let r := _match_entries hmacSha1 ipStr entries host ip port
    if port != DEFAULT_PORT && r.1.isEmpty && r.2.1.isEmpty then
      .ok (_match_entries hmacSha1 ipStr entries host ip DEFAULT_PORT)
    else .ok r

/-- The standard base64 alphabet as byte values: `A`–`Z`, `a`–`z`, `0`–`9`,
`+`, `/`. -/
def b64alphabet : List Nat :=
  (List.range 26).map (fun i => 65 + i) ++ (List.range 26).map (fun i => 97 + i) ++
    (List.range 10).map (fun i => 48 + i) ++ [43, 47]

/-- The base64 character for a 6-bit value. -/
def b64chr (v : Nat) : Nat := b64alphabet.getD v 0

/-- The 6-bit value of a base64 character, `none` for bytes outside the
alphabet. -/
def b64val (c : Nat) : Option Nat := b64alphabet.findIdx? (fun a => a == c)

/-- Model of `binascii.b2a_base64(data, newline=False)`: standard base64
with `=` padding. -/
def b2a_base64_model : Bytes → Bytes
  | a :: b :: c :: rest =>
    b64chr (a / 4) :: b64chr ((a % 4) * 16 + b / 16) ::
      b64chr ((b % 16) * 4 + c / 64) :: b64chr (c % 64) :: b2a_base64_model rest
  | [a, b] => [b64chr (a / 4), b64chr ((a % 4) * 16 + b / 16), b64chr ((b % 16) * 4), 61]
  | [a] => [b64chr (a / 4), b64chr ((a % 4) * 16), 61, 61]
  | [] => []

/-- Model of `binascii.a2b_base64` on inputs made of alphabet characters and
trailing `=` padding: decode four-character quanta, `none` (the library's
`binascii.Error`) on anything else.  Divergence from the library: the
library first discards non-alphabet bytes (so a lone `!` decodes to the
empty byte string rather than raising), whereas this model returns `none`
on them; every theorem and witness evaluates the model only on inputs made
of alphabet characters and padding, where the two agree (a lone alphabet
character such as `A` is an error in both). -/
def a2b_base64_model : Bytes → Option Bytes
  | [] => some []
  | c1 :: c2 :: c3 :: c4 :: rest =>
    match b64val c1, b64val c2 with
    | some v1, some v2 =>
      if c3 == 61 then
        if c4 == 61 && rest.isEmpty then some [v1 * 4 + v2 / 16] else none
      else
        match b64val c3 with
        | some v3 =>
          if c4 == 61 then
            if rest.isEmpty then some [v1 * 4 + v2 / 16, (v2 % 16) * 16 + v3 / 4]
            else none
          else
            match b64val c4 with
            | some v4 =>
              match a2b_base64_model rest with
              | some tl =>
                some ((v1 * 4 + v2 / 16) :: ((v2 % 16) * 16 + v3 / 4) ::
                  ((v3 % 4) * 64 + v4) :: tl)
              | none => none
            | none => none
        | none => none
    | _, _ => none
  | _ => none

/-- Parse a decimal byte string with no leading zero (as the `ipaddress`
module requires of IPv4 octets), `none` otherwise. -/
def parseDec (b : Bytes) : Option Nat :=
  if b = [] then none
  else if !b.all (fun c => 48 ≤ c && c ≤ 57) then none
  else if b.head? = some 48 && b.length != 1 then none
  else some (b.foldl (fun acc c => acc * 10 + (c - 48)) 0)

/-- Parse a dotted-quad IPv4 address into its 32-bit value. -/
def parseIPv4 (b : Bytes) : Option Nat :=
  match splitSep 46 b with
  | [o1, o2, o3, o4] =>
    match parseDec o1, parseDec o2, parseDec o3, parseDec o4 with
    | some a, some b1, some c, some d =>
      if a ≤ 255 && b1 ≤ 255 && c ≤ 255 && d ≤ 255 then
        some (((a * 256 + b1) * 256 + c) * 256 + d)
      else none
    | _, _, _, _ => none
  | _ => none

/-- Executable model of the `ipaddress.ip_network` collaborator on the
ASCII-decoded pattern, used to instantiate the `ipn` parameter in concrete
witnesses: IPv4 literals and `addr/prefix` CIDR forms with strict host-bit
checking (`ip_network`'s default).  IPv6 forms and IPv4 netmask notation are
not modelled (`none` here); theorems whose truth is sensitive to the
parser's behavior quantify over `ipn` instead of using this instance. -/
def ip_network_model (p : Bytes) : Option IPNetwork :=
  match splitSep 47 p with
  | [addr] => (parseIPv4 addr).map (fun a => ⟨4, a, 32⟩)
  | [addr, pl] =>
    match parseIPv4 addr, parseDec pl with
    | some a, some n =>
      if n ≤ 32 && a % 2 ^ (32 - n) == 0 then some ⟨4, a, n⟩ else none
    | _, _ => none
  | _ => none

lemma scanClassBody_length {p cnt r : Bytes}
    (h : scanClassBody p = some (cnt, r)) : r.length < p.length := by
  induction p generalizing cnt r with
  | nil => simp [scanClassBody] at h
  | cons c rest ih =>
    by_cases hc : c = 93
    · subst hc
      simp [scanClassBody] at h
      simp [← h.2]
    · rw [scanClassBody, if_neg hc] at h
      cases hsc : scanClassBody rest with
      | none => rw [hsc] at h; simp at h
      | some x =>
        obtain ⟨cnt0, r0⟩ := x
        rw [hsc] at h
        simp at h
        have := ih hsc
        simp [← h.2]
        omega

lemma scanClassStart_length {q cnt r : Bytes}
    (h : scanClassStart q = some (cnt, r)) : r.length < q.length := by
  rw [scanClassStart] at h
  by_cases hq : q.head? = some 93
  · rw [if_pos hq] at h
    cases hsc : scanClassBody (q.drop 1) with
    | none => rw [hsc] at h; simp at h
    | some x =>
      obtain ⟨cnt0, r0⟩ := x
      rw [hsc] at h
      simp at h
      obtain ⟨-, hr⟩ := h
      subst hr
      have h1 := scanClassBody_length hsc
      have h2 : q ≠ [] := by
        intro hn; subst hn; simp at hq
      have h3 : 0 < q.length := List.length_pos.mpr h2
      rw [List.length_drop] at h1
      omega
  · rw [if_neg hq] at h
    exact scanClassBody_length h

lemma parseClass_length {p : Bytes} {neg : Bool} {cnt r : Bytes}
    (h : parseClass p = some (neg, cnt, r)) : r.length < p.length := by
  rw [parseClass] at h
  by_cases hp : p.head? = some 33
  · rw [if_pos hp] at h
    cases hsc : scanClassStart (p.drop 1) with
    | none => rw [hsc] at h; simp at h
    | some x =>
      obtain ⟨cnt0, r0⟩ := x
      rw [hsc] at h
      simp at h
      have h1 := scanClassStart_length hsc
      have h2 : p ≠ [] := by
        intro hn; subst hn; simp at hp
      have h3 : 0 < p.length := List.length_pos.mpr h2
      rw [List.length_drop] at h1
      obtain ⟨-, -, hr⟩ := h
      subst hr
      omega
  · rw [if_neg hp] at h
    cases hsc : scanClassStart p with
    | none => rw [hsc] at h; simp at h
    | some x =>
      obtain ⟨cnt0, r0⟩ := x
      rw [hsc] at h
      simp at h
      obtain ⟨-, -, hr⟩ := h
      subst hr
      exact scanClassStart_length hsc

lemma tokenizeF_congr : ∀ (f g : Nat) (p : Bytes),
    p.length ≤ f → p.length ≤ g → tokenizeF f p = tokenizeF g p := by
  intro f
  induction f with
  | zero =>
    intro g p hf _
    have : p = [] := List.length_eq_zero.mp (Nat.le_zero.mp hf)
    subst this
    cases g <;> simp [tokenizeF]
  | succ f ih =>
    intro g p hf hg
    cases p with
    | nil => cases g <;> simp [tokenizeF]
    | cons c rest =>
      cases g with
      | zero => simp at hg
      | succ g' =>
        simp only [List.length_cons, Nat.succ_le_succ_iff] at hf hg
        rw [tokenizeF, tokenizeF]
        by_cases h42 : c = 42
        · simp [h42, ih g' rest hf hg]
        · by_cases h63 : c = 63
          · simp [h42, h63, ih g' rest hf hg]
          · by_cases h91 : c = 91
            · simp only [h42, h63, h91, if_false, if_true]
              cases hpc : parseClass rest with
              | none => simp [ih g' rest hf hg]
              | some x =>
                obtain ⟨neg, cnt, r⟩ := x
                have hr := parseClass_length hpc
                simp [ih g' r (by omega) (by omega)]
            · simp [h42, h63, h91, ih g' rest hf hg]

lemma tokenizeF_eq_tokenize {f : Nat} {p : Bytes} (hf : p.length ≤ f) :
    tokenizeF f p = tokenize p :=
  tokenizeF_congr f p.length p hf (Nat.le_refl _)

lemma tokenize_nil : tokenize [] = [] := rfl

lemma tokenize_star (p : Bytes) : tokenize (42 :: p) = .star :: tokenize p := by
  rw [tokenize, List.length_cons, tokenizeF]
  simp [tokenize]

lemma tokenize_anyOne (p : Bytes) : tokenize (63 :: p) = .anyOne :: tokenize p := by
  rw [tokenize, List.length_cons, tokenizeF]
  simp [tokenize]

lemma tokenize_cls {rest : Bytes} {neg : Bool} {cnt r : Bytes}
    (h : parseClass rest = some (neg, cnt, r)) :
    tokenize (91 :: rest) = .cls neg (classItems cnt) :: tokenize r := by
  have hr := parseClass_length h
  have step : tokenize (91 :: rest) =
      (match parseClass rest with
       | some (neg, cnt, r) => .cls neg (classItems cnt) :: tokenizeF rest.length r
       | none => .lit 91 :: tokenizeF rest.length rest) := rfl
  rw [step, h]
  show GlobTok.cls neg (classItems cnt) :: tokenizeF rest.length r = _
  rw [tokenizeF_eq_tokenize (Nat.le_of_lt hr)]

lemma tokenize_cls_none {rest : Bytes} (h : parseClass rest = none) :
    tokenize (91 :: rest) = .lit 91 :: tokenize rest := by
  have step : tokenize (91 :: rest) =
      (match parseClass rest with
       | some (neg, cnt, r) => .cls neg (classItems cnt) :: tokenizeF rest.length r
       | none => .lit 91 :: tokenizeF rest.length rest) := rfl
  rw [step, h]
  rfl

lemma tokenize_lit {c : Nat} (p : Bytes) (h42 : c ≠ 42) (h63 : c ≠ 63)
    (h91 : c ≠ 91) : tokenize (c :: p) = .lit c :: tokenize p := by
  rw [tokenize, List.length_cons, tokenizeF]
  simp [h42, h63, h91, tokenize]

lemma matchToksF_congr : ∀ (f g : Nat) (ts : List GlobTok) (v : Bytes),
    ts.length + v.length < f → ts.length + v.length < g →
    matchToksF f ts v = matchToksF g ts v := by
  intro f
  induction f with
  | zero => intro g ts v hf _; omega
  | succ f ih =>
    intro g ts v hf hg
    cases g with
    | zero => omega
    | succ g' =>
      cases ts with
      | nil => rw [matchToksF, matchToksF]
      | cons t ts' =>
        simp only [List.length_cons] at hf hg
        cases t with
        | star =>
          cases v with
          | nil =>
            rw [matchToksF, matchToksF]
            exact ih g' ts' [] (by simp; omega) (by simp; omega)
          | cons x vs =>
            rw [matchToksF, matchToksF]
            have h1 := ih g' ts' (x :: vs) (by simp at hf ⊢; omega)
              (by simp at hg ⊢; omega)
            have h2 := ih g' (.star :: ts') vs (by simp at hf ⊢; omega)
              (by simp at hg ⊢; omega)
            rw [h1, h2]
        | anyOne =>
          cases v with
          | nil => rw [matchToksF, matchToksF]
          | cons x vs =>
            rw [matchToksF, matchToksF]
            exact ih g' ts' vs (by simp at hf ⊢; omega) (by simp at hg ⊢; omega)
        | cls neg items =>
          cases v with
          | nil => rw [matchToksF, matchToksF]
          | cons x vs =>
            rw [matchToksF, matchToksF]
            rw [ih g' ts' vs (by simp at hf ⊢; omega) (by simp at hg ⊢; omega)]
        | lit b =>
          cases v with
          | nil => rw [matchToksF, matchToksF]
          | cons x vs =>
            rw [matchToksF, matchToksF]
            rw [ih g' ts' vs (by simp at hf ⊢; omega) (by simp at hg ⊢; omega)]

lemma matchToksF_eq_matchToks {f : Nat} {ts : List GlobTok} {v : Bytes}
    (hf : ts.length + v.length < f) : matchToksF f ts v = matchToks ts v :=
  matchToksF_congr f (ts.length + v.length + 1) ts v hf (by omega)

lemma matchToks_nil (v : Bytes) : matchToks [] v = v.isEmpty := by
  rw [matchToks, matchToksF]

lemma matchToks_star_nil (ts : List GlobTok) :
    matchToks (.star :: ts) [] = matchToks ts [] := by
  rw [matchToks, matchToksF]
  exact matchToksF_eq_matchToks (by simp)

lemma matchToks_star (ts : List GlobTok) (x : Nat) (vs : Bytes) :
    matchToks (.star :: ts) (x :: vs) =
      (matchToks ts (x :: vs) || matchToks (.star :: ts) vs) := by
  rw [matchToks, matchToksF]
  rw [matchToksF_eq_matchToks (by simp only [List.length_cons]; omega)]
  rw [matchToksF_eq_matchToks (by simp only [List.length_cons]; omega)]

lemma matchToks_anyOne_nil (ts : List GlobTok) :
    matchToks (.anyOne :: ts) [] = false := by
  rw [matchToks, matchToksF]

lemma matchToks_anyOne (ts : List GlobTok) (x : Nat) (vs : Bytes) :
    matchToks (.anyOne :: ts) (x :: vs) = matchToks ts vs := by
  rw [matchToks, matchToksF]
  exact matchToksF_eq_matchToks (by simp; omega)

lemma matchToks_cls_nil (neg : Bool) (items : List (Nat × Nat))
    (ts : List GlobTok) : matchToks (.cls neg items :: ts) [] = false := by
  rw [matchToks, matchToksF]

lemma matchToks_cls (neg : Bool) (items : List (Nat × Nat))
    (ts : List GlobTok) (x : Nat) (vs : Bytes) :
    matchToks (.cls neg items :: ts) (x :: vs) =
      ((inItems x items != neg) && matchToks ts vs) := by
  rw [matchToks, matchToksF]
  rw [matchToksF_eq_matchToks (by simp; omega)]

lemma matchToks_lit_nil (b : Nat) (ts : List GlobTok) :
    matchToks (.lit b :: ts) [] = false := by
  rw [matchToks, matchToksF]

lemma matchToks_lit (b : Nat) (ts : List GlobTok) (x : Nat) (vs : Bytes) :
    matchToks (.lit b :: ts) (x :: vs) = ((x == b) && matchToks ts vs) := by
  rw [matchToks, matchToksF]
  rw [matchToksF_eq_matchToks (by simp; omega)]

/-- The single token produced for one byte of a bracket-escaped,
wildcard-free pattern: a singleton class for `[` and `]`, a literal
otherwise. -/
def litTok (c : Nat) : GlobTok :=
  if c = 91 then .cls false [(91, 91)]
  else if c = 93 then .cls false [(93, 93)]
  else .lit c

lemma tokenize_escape (P : Bytes) (h42 : 42 ∉ P) (h63 : 63 ∉ P) :
    tokenize (escapeBrackets P) = P.map litTok := by
  induction P with
  | nil => simp [escapeBrackets, tokenize_nil]
  | cons c P' ih =>
    have h42' : 42 ∉ P' := fun h => h42 (List.mem_cons_of_mem _ h)
    have h63' : 63 ∉ P' := fun h => h63 (List.mem_cons_of_mem _ h)
    have hc42 : c ≠ 42 := fun h => h42 (h ▸ List.mem_cons_self _ _)
    have hc63 : c ≠ 63 := fun h => h63 (h ▸ List.mem_cons_self _ _)
    by_cases h91 : c = 91
    · subst h91
      have hesc : escapeBrackets (91 :: P') = 91 :: 91 :: 93 :: escapeBrackets P' := by
        rw [escapeBrackets]
        simp
      rw [hesc]
      have hpc : parseClass (91 :: 93 :: escapeBrackets P') =
          some (false, [91], escapeBrackets P') := by
        simp [parseClass, scanClassStart, scanClassBody]
      rw [tokenize_cls hpc, ih h42' h63']
      rfl
    · by_cases h93 : c = 93
      · subst h93
        have hesc : escapeBrackets (93 :: P') = 91 :: 93 :: 93 :: escapeBrackets P' := by
          rw [escapeBrackets]
          simp
        rw [hesc]
        have hpc : parseClass (93 :: 93 :: escapeBrackets P') =
            some (false, [93], escapeBrackets P') := by
          simp [parseClass, scanClassStart, scanClassBody]
        rw [tokenize_cls hpc, ih h42' h63']
        rfl
      · have hesc : escapeBrackets (c :: P') = c :: escapeBrackets P' := by
          rw [escapeBrackets]
          simp [h91, h93]
        rw [hesc, tokenize_lit _ hc42 hc63 h91, ih h42' h63']
        simp [litTok, h91, h93]

lemma matchToks_map_litTok (P : Bytes) : ∀ v : Bytes,
    matchToks (P.map litTok) v = true ↔ v = P := by
  induction P with
  | nil =>
    intro v
    rw [List.map_nil, matchToks_nil]
    cases v <;> simp
  | cons c P' ih =>
    intro v
    cases v with
    | nil =>
      have hfalse : matchToks (litTok c :: P'.map litTok) [] = false := by
        by_cases h91 : c = 91
        · simp [litTok, h91, matchToks_cls_nil]
        · by_cases h93 : c = 93
          · simp [litTok, h91, h93, matchToks_cls_nil]
          · simp [litTok, h91, h93, matchToks_lit_nil]
      rw [List.map_cons]
      simp [hfalse]
    | cons d vs =>
      rw [List.map_cons]
      by_cases h91 : c = 91
      · subst h91
        rw [show litTok 91 = .cls false [(91, 91)] from rfl, matchToks_cls]
        simp only [inItems, List.any_cons, List.any_nil, Bool.or_false,
          Bool.and_eq_true, bne_iff_ne, ne_eq, Bool.not_eq_false,
          List.cons.injEq]
        rw [ih vs]
        constructor
        · rintro ⟨hd, hvs⟩
          simp only [Bool.and_eq_true, decide_eq_true_eq] at hd
          exact ⟨by omega, hvs⟩
        · rintro ⟨hd, hvs⟩
          subst hd
          exact ⟨by simp, hvs⟩
      · by_cases h93 : c = 93
        · subst h93
          rw [show litTok 93 = .cls false [(93, 93)] from by simp [litTok],
            matchToks_cls]
          simp only [inItems, List.any_cons, List.any_nil, Bool.or_false,
            Bool.and_eq_true, bne_iff_ne, ne_eq, Bool.not_eq_false,
            List.cons.injEq]
          rw [ih vs]
          constructor
          · rintro ⟨hd, hvs⟩
            simp only [Bool.and_eq_true, decide_eq_true_eq] at hd
            exact ⟨by omega, hvs⟩
          · rintro ⟨hd, hvs⟩
            subst hd
            exact ⟨by simp, hvs⟩
        · rw [show litTok c = .lit c from by simp [litTok, h91, h93],
            matchToks_lit]
          simp only [Bool.and_eq_true, beq_iff_eq, List.cons.injEq]
          rw [ih vs]

lemma globMatch_escape {P : Bytes} (v : Bytes) (h42 : 42 ∉ P) (h63 : 63 ∉ P) :
    globMatch (escapeBrackets P) v = true ↔ v = P := by
  rw [globMatch, tokenize_escape P h42 h63]
  exact matchToks_map_litTok P v

lemma splitSep_ne_nil (sep : Nat) (l : Bytes) : splitSep sep l ≠ [] := by
  cases l with
  | nil => simp [splitSep]
  | cons c rest =>
    rw [splitSep]
    cases splitSep sep rest with
    | nil => simp
    | cons g gs =>
      by_cases h : c == sep <;> simp [h]

lemma splitSep_not_mem {sep : Nat} {l : Bytes} (h : sep ∉ l) :
    splitSep sep l = [l] := by
  induction l with
  | nil => rfl
  | cons c rest ih =>
    have hc : c ≠ sep := fun hx => h (hx ▸ List.mem_cons_self _ _)
    have hrest : sep ∉ rest := fun hx => h (List.mem_cons_of_mem _ hx)
    rw [splitSep, ih hrest]
    simp [hc]

lemma splitSep_append {sep : Nat} {a r : Bytes} (h : sep ∉ a) :
    splitSep sep (a ++ sep :: r) = a :: splitSep sep r := by
  induction a with
  | nil =>
    rw [List.nil_append, splitSep]
    cases hs : splitSep sep r with
    | nil => exact absurd hs (splitSep_ne_nil sep r)
    | cons g gs => simp
  | cons c a' ih =>
    have hc : c ≠ sep := fun hx => h (hx ▸ List.mem_cons_self _ _)
    have ha' : sep ∉ a' := fun hx => h (List.mem_cons_of_mem _ hx)
    rw [List.cons_append, splitSep, ih ha']
    simp [hc]

lemma b64alphabet_length : b64alphabet.length = 64 := by decide

lemma b64val_b64chr : ∀ v : Nat, v < 64 → b64val (b64chr v) = some v := by
  decide

lemma b64chr_ne_61 (v : Nat) : b64chr v ≠ 61 := by
  by_cases h : v < 64
  · have : ∀ v : Nat, v < 64 → b64chr v ≠ 61 := by decide
    exact this v h
  · rw [b64chr, List.getD_eq_default]
    · decide
    · rw [b64alphabet_length]; omega

lemma b64chr_ne_124 (v : Nat) : b64chr v ≠ 124 := by
  by_cases h : v < 64
  · have : ∀ v : Nat, v < 64 → b64chr v ≠ 124 := by decide
    exact this v h
  · rw [b64chr, List.getD_eq_default]
    · decide
    · rw [b64alphabet_length]; omega

lemma b2a_no_pipe (l : Bytes) : 124 ∉ b2a_base64_model l := by
  induction l using b2a_base64_model.induct with
  | case1 a b c rest ih =>
    rw [b2a_base64_model]
    intro hmem
    simp only [List.mem_cons] at hmem
    rcases hmem with h | h | h | h | h
    · exact b64chr_ne_124 _ h.symm
    · exact b64chr_ne_124 _ h.symm
    · exact b64chr_ne_124 _ h.symm
    · exact b64chr_ne_124 _ h.symm
    · exact ih h
  | case2 a b =>
    rw [b2a_base64_model]
    intro hmem
    simp only [List.mem_cons, List.not_mem_nil, or_false] at hmem
    rcases hmem with h | h | h | h
    · exact b64chr_ne_124 _ h.symm
    · exact b64chr_ne_124 _ h.symm
    · exact b64chr_ne_124 _ h.symm
    · omega
  | case3 a =>
    rw [b2a_base64_model]
    intro hmem
    simp only [List.mem_cons, List.not_mem_nil, or_false] at hmem
    rcases hmem with h | h | h | h
    · exact b64chr_ne_124 _ h.symm
    · exact b64chr_ne_124 _ h.symm
    · omega
    · omega
  | case4 =>
    simp [b2a_base64_model]

lemma a2b_b2a (l : Bytes) (hl : ∀ b ∈ l, b < 256) :
    a2b_base64_model (b2a_base64_model l) = some l := by
  induction l using b2a_base64_model.induct with
  | case1 a b c rest ih =>
    have ha : a < 256 := hl a (by simp)
    have hb : b < 256 := hl b (by simp)
    have hc : c < 256 := hl c (by simp)
    have hrest : ∀ x ∈ rest, x < 256 := fun x hx => hl x (by simp [hx])
    rw [b2a_base64_model, a2b_base64_model]
    rw [b64val_b64chr _ (by omega), b64val_b64chr _ (by omega)]
    have h3 : (b64chr ((b % 16) * 4 + c / 64) == 61) = false := by
      simp [b64chr_ne_61]
    have h4 : (b64chr (c % 64) == 61) = false := by
      simp [b64chr_ne_61]
    rw [h3]
    simp only [Bool.false_eq_true, if_false]
    rw [b64val_b64chr _ (by omega), h4]
    simp only [Bool.false_eq_true, if_false]
    rw [b64val_b64chr _ (by omega), ih hrest]
    have e1 : a / 4 * 4 + (a % 4 * 16 + b / 16) / 16 = a := by omega
    have e2 : (a % 4 * 16 + b / 16) % 16 * 16 + (b % 16 * 4 + c / 64) / 4 = b := by
      omega
    have e3 : (b % 16 * 4 + c / 64) % 4 * 64 + c % 64 = c := by omega
    show some ((a / 4 * 4 + (a % 4 * 16 + b / 16) / 16) ::
        ((a % 4 * 16 + b / 16) % 16 * 16 + (b % 16 * 4 + c / 64) / 4) ::
        ((b % 16 * 4 + c / 64) % 4 * 64 + c % 64) :: rest) =
      some (a :: b :: c :: rest)
    rw [e1, e2, e3]
  | case2 a b =>
    have ha : a < 256 := hl a (by simp)
    have hb : b < 256 := hl b (by simp)
    rw [b2a_base64_model, a2b_base64_model]
    rw [b64val_b64chr _ (by omega), b64val_b64chr _ (by omega)]
    have h3 : (b64chr (b % 16 * 4) == 61) = false := by
      simp [b64chr_ne_61]
    rw [h3]
    simp only [Bool.false_eq_true, if_false]
    rw [b64val_b64chr _ (by omega)]
    simp only [beq_self_eq_true, if_true, List.isEmpty_nil, if_pos]
    congr 1
    have e1 : a / 4 * 4 + (a % 4 * 16 + b / 16) / 16 = a := by omega
    have e2 : (a % 4 * 16 + b / 16) % 16 * 16 + b % 16 * 4 / 4 = b := by omega
    rw [e1, e2]
  | case3 a =>
    have ha : a < 256 := hl a (by simp)
    rw [b2a_base64_model, a2b_base64_model]
    rw [b64val_b64chr _ (by omega), b64val_b64chr _ (by omega)]
    simp only [beq_self_eq_true, Bool.and_self, List.isEmpty_nil, if_true, if_pos]
    congr 1
    have e1 : a / 4 * 4 + a % 4 * 16 / 16 = a := by omega
    rw [e1]
  | case4 => rfl

lemma dropWhile_head_not {l : Bytes}
    (hh : ∀ c, l.head? = some c → isSp c = false) : l.dropWhile isSp = l := by
  cases l with
  | nil => rfl
  | cons c rest =>
    rw [List.dropWhile_cons, hh c rfl]
    simp

lemma stripB_of_ends {l : Bytes}
    (hh : ∀ c, l.head? = some c → isSp c = false)
    (ht : ∀ c, l.getLast? = some c → isSp c = false) : stripB l = l := by
  rw [stripB, dropWhile_head_not hh, dropWhile_head_not, List.reverse_reverse]
  intro c hc
  rw [List.head?_reverse] at hc
  exact ht c hc

lemma takeWhile_all_append {p : Nat → Bool} {a : Bytes} {c : Nat} {r : Bytes}
    (ha : ∀ b ∈ a, p b = true) (hc : p c = false) :
    (a ++ c :: r).takeWhile p = a := by
  induction a with
  | nil => simp [List.takeWhile_cons, hc]
  | cons x a' ih =>
    rw [List.cons_append, List.takeWhile_cons, ha x (by simp)]
    simp only [if_true]
    rw [ih fun b hb => ha b (by simp [hb])]

lemma dropWhile_all_append {p : Nat → Bool} {a : Bytes} {c : Nat} {r : Bytes}
    (ha : ∀ b ∈ a, p b = true) (hc : p c = false) :
    (a ++ c :: r).dropWhile p = c :: r := by
  induction a with
  | nil => simp [List.dropWhile_cons, hc]
  | cons x a' ih =>
    rw [List.cons_append, List.dropWhile_cons, ha x (by simp)]
    simp only [if_true]
    exact ih fun b hb => ha b (by simp [hb])

lemma splitWsMax_two_tokens {pat kb : Bytes}
    (hpat : ∀ b ∈ pat, isSp b = false) (hpne : pat ≠ [])
    (hkb : kb ≠ []) (hkh : ∀ c, kb.head? = some c → isSp c = false) :
    splitWsMax 1 (pat ++ 32 :: kb) = [pat, kb] := by
  have hline_head : ∀ c, (pat ++ 32 :: kb).head? = some c → isSp c = false := by
    intro c hc
    cases pat with
    | nil => exact absurd rfl hpne
    | cons p0 pat' =>
      simp at hc
      exact hc ▸ hpat p0 (by simp)
  rw [splitWsMax]
  simp only [dropWhile_head_not hline_head]
  rw [if_neg (by simp [hpne])]
  rw [takeWhile_all_append (fun b hb => by simp [hpat b hb]) (by simp [isSp])]
  rw [dropWhile_all_append (fun b hb => by simp [hpat b hb]) (by simp [isSp])]
  rw [splitWsMax]
  have h32 : (32 :: kb).dropWhile isSp = kb := by
    rw [List.dropWhile_cons]
    simp only [show isSp 32 = true from rfl, if_true]
    exact dropWhile_head_not hkh
  simp only [h32]
  rw [if_neg (by simp [hkb])]


lemma initGo_pos (ipn : Bytes → Option IPNetwork) (l : List Bytes) :
    (HostList.initGo ipn l).pos_patterns =
      (l.filter (fun p => !(p.head? == some 33))).map (mkHostPattern ipn) := by
  induction l with
  | nil => rfl
  | cons p rest ih =>
    rw [HostList.initGo]
    by_cases hp : p.head? = some 33
    · rw [if_pos hp]
      show (HostList.initGo ipn rest).pos_patterns = _
      rw [ih, List.filter_cons]
      simp [hp]
    · rw [if_neg hp]
      show mkHostPattern ipn p :: (HostList.initGo ipn rest).pos_patterns = _
      rw [ih, List.filter_cons]
      simp [hp]

lemma initGo_neg (ipn : Bytes → Option IPNetwork) (l : List Bytes) :
    (HostList.initGo ipn l).neg_patterns =
      (l.filter (fun p => p.head? == some 33)).map
        (fun p => mkHostPattern ipn (p.drop 1)) := by
  induction l with
  | nil => rfl
  | cons p rest ih =>
    rw [HostList.initGo]
    by_cases hp : p.head? = some 33
    · rw [if_pos hp]
      show mkHostPattern ipn (p.drop 1) :: (HostList.initGo ipn rest).neg_patterns = _
      rw [ih, List.filter_cons]
      simp [hp]
    · rw [if_neg hp]
      show (HostList.initGo ipn rest).neg_patterns = _
      rw [ih, List.filter_cons]
      simp [hp]

lemma getLast?_append_right {l₁ l₂ : Bytes} (h : l₂ ≠ []) :
    (l₁ ++ l₂).getLast? = l₂.getLast? := by
  rw [List.getLast?_append]
  cases hg : l₂.getLast? with
  | none => exact absurd (List.getLast?_eq_none_iff.mp hg) h
  | some c => rfl

lemma splitSep_three {magic s h : Bytes} (hm : 124 ∉ magic) (hs : 124 ∉ s)
    (hh : 124 ∉ h) :
    splitSep 124 (magic ++ 124 :: (s ++ 124 :: h)) = [magic, s, h] := by
  rw [splitSep_append hm, splitSep_append hs, splitSep_not_mem hh]

lemma HashedHost.init_three (a2b : Bytes → Option Bytes)
    (pattern m s h : Bytes)
    (hsp : splitSep 124 (pattern.drop 1) = [m, s, h]) :
    HashedHost.init a2b pattern =
      (match a2b s, a2b h with
       | some S, some D =>
         if m = hmacSha1Magic then .ok ⟨S, D⟩
         else .error .unsupportedHashType
       | _, _ => .error .invalidHashFormat) := by
  rw [HashedHost.init, hsp]

/-- Claim C7: a hashed-host pattern field that splits into three parts whose
salt and digest base64-decode successfully, but whose magic value is not the
supported HMAC-SHA1 tag `1`, fails construction with the
`UnsupportedHashType` error, which is distinct from the `InvalidHashFormat`
error used for a wrong part count or undecodable base64. -/
theorem claim_C7_unsupported_hash_type
    (a2b : Bytes → Option Bytes) (magic s h S D : Bytes)
    (hm : 124 ∉ magic) (hs : 124 ∉ s) (hh : 124 ∉ h)
    (hds : a2b s = some S) (hdh : a2b h = some D)
    (hmagic : magic ≠ hmacSha1Magic) :
    HashedHost.init a2b (124 :: (magic ++ 124 :: (s ++ 124 :: h))) =
      .error .unsupportedHashType ∧
    ParseErr.unsupportedHashType ≠ ParseErr.invalidHashFormat := by
  refine ⟨?_, by simp⟩
  have hsp : splitSep 124 ((124 :: (magic ++ 124 :: (s ++ 124 :: h))).drop 1) =
      [magic, s, h] := splitSep_three hm hs hh
  rw [HashedHost.init_three a2b _ magic s h hsp, hds, hdh]
  show (if magic = hmacSha1Magic then Except.ok (⟨S, D⟩ : HashedHost)
    else Except.error ParseErr.unsupportedHashType) = _
  rw [if_neg hmagic]

/-- Claim C9: hashed-host validation order — the part-count and base64
checks run before the magic check, so a malformed field fails with
`InvalidHashFormat` regardless of its magic, and `UnsupportedHashType`
arises only for fields whose three parts split and base64-decode
successfully. -/
theorem claim_C9_hash_error_order (a2b : Bytes → Option Bytes) :
    (∀ p : Bytes, (splitSep 124 (p.drop 1)).length ≠ 3 →
      HashedHost.init a2b p = .error .invalidHashFormat) ∧
    (∀ p m s h : Bytes, splitSep 124 (p.drop 1) = [m, s, h] →
      (a2b s = none ∨ a2b h = none) →
      HashedHost.init a2b p = .error .invalidHashFormat) ∧
    (∀ p : Bytes, HashedHost.init a2b p = .error .unsupportedHashType →
      ∃ m s h S D : Bytes, splitSep 124 (p.drop 1) = [m, s, h] ∧
        a2b s = some S ∧ a2b h = some D ∧ m ≠ hmacSha1Magic) := by
  refine ⟨?_, ?_, ?_⟩
  · intro p hlen
    rw [HashedHost.init]
    cases hsp : splitSep 124 (p.drop 1) with
    | nil => rfl
    | cons m t1 =>
      cases t1 with
      | nil => rfl
      | cons s t2 =>
        cases t2 with
        | nil => rfl
        | cons h t3 =>
          cases t3 with
          | nil => exact absurd (by rw [hsp]; rfl) hlen
          | cons x t4 => rfl
  · intro p m s h hsp hdec
    rw [HashedHost.init_three a2b p m s h hsp]
    rcases hdec with hn | hn
    · rw [hn]
    · cases hds : a2b s with
      | none => rfl
      | some S => simp [hds, hn]
  · intro p hinit
    cases hsp : splitSep 124 (p.drop 1) with
    | nil =>
      rw [HashedHost.init, hsp] at hinit
      simp at hinit
    | cons m t1 =>
      cases t1 with
      | nil =>
        rw [HashedHost.init, hsp] at hinit
        simp at hinit
      | cons s t2 =>
        cases t2 with
        | nil =>
          rw [HashedHost.init, hsp] at hinit
          simp at hinit
        | cons h t3 =>
          cases t3 with
          | cons x t4 =>
            rw [HashedHost.init, hsp] at hinit
            simp at hinit
          | nil =>
            rw [HashedHost.init_three a2b p m s h hsp] at hinit
            cases hds : a2b s with
            | none => rw [hds] at hinit; simp at hinit
            | some S =>
              cases hdh : a2b h with
              | none => rw [hds, hdh] at hinit; simp at hinit
              | some D =>
                rw [hds, hdh] at hinit
                by_cases hmagic : m = hmacSha1Magic
                · simp [hmagic] at hinit
                · exact ⟨m, s, h, S, D, rfl, hds, hdh, hmagic⟩

/-- Claim C3: hashed-host round trip — a matcher constructed from the
pattern field `|1|base64(S)|base64(HMAC-SHA1(S,H))` stores salt `S` and
digest `HMAC-SHA1(S,H)` and returns true on a query with nonempty host `H`;
and in general `HashedHost.matches` is true iff the host is nonempty and
the keyed HMAC-SHA1 of the host equals the stored digest, or the same
holds for the address. -/
theorem claim_C3_hashed_host_roundtrip :
    (∀ (hmacSha1 : Bytes → Bytes → Bytes) (S H : Bytes),
      (∀ b ∈ S, b < 256) → (∀ b ∈ hmacSha1 S H, b < 256) → H ≠ [] →
      HashedHost.init a2b_base64_model
          (124 :: (hmacSha1Magic ++ 124 :: (b2a_base64_model S ++
            124 :: b2a_base64_model (hmacSha1 S H)))) =
        .ok ⟨S, hmacSha1 S H⟩ ∧
      ∀ (A : Bytes) (i : Option IPAddr),
        HashedHost.matches hmacSha1 ⟨S, hmacSha1 S H⟩ H A i = true) ∧
    (∀ (hmacSha1 : Bytes → Bytes → Bytes) (salt dig h a : Bytes)
        (i : Option IPAddr),
      HashedHost.matches hmacSha1 ⟨salt, dig⟩ h a i = true ↔
        ((h ≠ [] ∧ hmacSha1 salt h = dig) ∨
         (a ≠ [] ∧ hmacSha1 salt a = dig))) := by
  constructor
  · intro hmacSha1 S H hS hD hH
    constructor
    · have hsp : splitSep 124 ((124 :: (hmacSha1Magic ++ 124 ::
          (b2a_base64_model S ++ 124 :: b2a_base64_model (hmacSha1 S H)))).drop 1) =
          [hmacSha1Magic, b2a_base64_model S, b2a_base64_model (hmacSha1 S H)] :=
        splitSep_three (by decide) (b2a_no_pipe S) (b2a_no_pipe _)
      rw [HashedHost.init_three a2b_base64_model _ _ _ _ hsp]
      rw [a2b_b2a S hS, a2b_b2a _ hD]
      show (if hmacSha1Magic = hmacSha1Magic then
        Except.ok (⟨S, hmacSha1 S H⟩ : HashedHost) else
        Except.error ParseErr.unsupportedHashType) = _
      rw [if_pos rfl]
    · intro A i
      rw [HashedHost.matches, HashedHost.matchVal]
      simp [hH]
  · intro hmacSha1 salt dig h a i
    rw [HashedHost.matches, HashedHost.matchVal, HashedHost.matchVal]
    simp [List.isEmpty_iff]

/-- Claim C8: `_WildcardPattern.matches` is true iff the host is nonempty
and glob-matches the pattern or the address is nonempty and glob-matches
the pattern, where construction escapes `[` to `[[]` and `]` to `[]]`; the
escaping makes brackets (and every other byte of a `*`/`?`-free pattern)
match literally and case-sensitively: such a pattern glob-matches exactly
itself. -/
theorem claim_C8_wildcard_contract :
    (∀ (p h a : Bytes) (i : Option IPAddr),
      (_WildcardPattern.init p).matches h a i =
        ((!h.isEmpty && globMatch (escapeBrackets p) h) ||
         (!a.isEmpty && globMatch (escapeBrackets p) a))) ∧
    (∀ P v : Bytes, 42 ∉ P → 63 ∉ P →
      (globMatch (escapeBrackets P) v = true ↔ v = P)) := by
  constructor
  · intro p h a i
    rfl
  · intro P v h42 h63
    exact globMatch_escape v h42 h63

/-- Claim C5: `HostList.__init__` tries the CIDR interpretation of each
pattern piece first and falls back to a wildcard pattern only when the
parse fails; a piece the IP-network parser accepts becomes a CIDR pattern
whose match result depends only on the parsed IP argument, never on
glob-matching of host or address. -/
theorem claim_C5_cidr_precedence :
    (∀ (ipn : Bytes → Option IPNetwork) (p : Bytes) (n : IPNetwork),
      ipn p = some n →
        mkHostPattern ipn p = .cidr ⟨n⟩ ∧
        ∀ (h a : Bytes) (i : Option IPAddr),
          (mkHostPattern ipn p).matches h a i =
            (match i with
             | none => false
             | some x => n.contains x)) ∧
    (∀ (ipn : Bytes → Option IPNetwork) (p : Bytes),
      ipn p = none → mkHostPattern ipn p = .wildcard (_WildcardPattern.init p)) := by
  constructor
  · intro ipn p n hp
    have hmk : mkHostPattern ipn p = .cidr ⟨n⟩ := by
      rw [mkHostPattern, hp]
    refine ⟨hmk, ?_⟩
    intro h a i
    rw [hmk]
    cases i <;> rfl
  · intro ipn p hp
    rw [mkHostPattern, hp]

/-- Claim C6 counterexample: three patterns with no wildcard characters and
no negation whose `HostList` does not match themselves — `1.2.3.4` (parsed
as a CIDR pattern, which ignores the host string; toward a query with no
parsed IP it is false), the empty pattern (empty host strings never match),
and `a,b` (split on the comma into two pieces, neither matching the full
string). -/
theorem claim_C6_counterexample :
    (HostList.init ip_network_model [49, 46, 50, 46, 51, 46, 52]).matches
      [49, 46, 50, 46, 51, 46, 52] [] none = false ∧
    (HostList.init ip_network_model []).matches [] [] none = false ∧
    (HostList.init ip_network_model [97, 44, 98]).matches
      [97, 44, 98] [] none = false := by
  refine ⟨by decide, by decide, by decide⟩

/-- Claim C6 (amended): for every nonempty pattern `P` containing no
wildcard characters (`*`, `?`), no comma, not starting with the negation
mark `!`, and not accepted by the IP-network parser,
`HostList(P).matches(P, _, _)` is true for arbitrary values of the other
two arguments. -/
theorem claim_C6_self_match (ipn : Bytes → Option IPNetwork)
    (P a : Bytes) (i : Option IPAddr)
    (hne : P ≠ []) (h42 : 42 ∉ P) (h63 : 63 ∉ P) (h44 : 44 ∉ P)
    (hneg : P.head? ≠ some 33) (hcidr : ipn P = none) :
    (HostList.init ipn P).matches P a i = true := by
  rw [HostList.init, splitSep_not_mem h44]
  have hgo : HostList.initGo ipn [P] = ⟨[mkHostPattern ipn P], []⟩ := by
    rw [HostList.initGo]
    rw [if_neg hneg]
    rfl
  rw [hgo, HostList.matches]
  rw [mkHostPattern, hcidr]
  simp only [List.any_cons, List.any_nil, Bool.or_false, Bool.not_false,
    Bool.and_true]
  have hmatch : (HostPattern.wildcard (_WildcardPattern.init P)).matches P a i = true := by
    rw [HostPattern.matches, _WildcardPattern.matches, _WildcardPattern.init]
    have hglob : globMatch (escapeBrackets P) P = true :=
      (globMatch_escape P h42 h63).mpr rfl
    rw [_WildcardPattern.matchVal]
    simp [hglob, hne]
  simp [hmatch]

/-- Claim C2: `HostList.matches` is true iff at least one positive
(non-`!`) piece of the comma-separated pattern field matches and no
negated (`!`-prefixed, with the `!` stripped) piece matches; in particular
a field all of whose pieces are negated matches nothing. -/
theorem claim_C2_host_list_semantics (ipn : Bytes → Option IPNetwork)
    (field h a : Bytes) (i : Option IPAddr) :
    ((HostList.init ipn field).matches h a i = true ↔
      ((∃ p ∈ splitSep 44 field, p.head? ≠ some 33 ∧
          (mkHostPattern ipn p).matches h a i = true) ∧
       ¬(∃ p ∈ splitSep 44 field, p.head? = some 33 ∧
          (mkHostPattern ipn (p.drop 1)).matches h a i = true))) ∧
    ((∀ p ∈ splitSep 44 field, p.head? = some 33) →
      (HostList.init ipn field).matches h a i = false) := by
  constructor
  · rw [HostList.init, HostList.matches, initGo_pos, initGo_neg]
    simp only [Bool.and_eq_true, Bool.not_eq_true', List.any_eq_false,
      List.any_eq_true, List.mem_map, List.mem_filter]
    constructor
    · rintro ⟨⟨x, ⟨p, ⟨hp, hcond⟩, hxe⟩, hxm⟩, hneg⟩
      refine ⟨⟨p, hp, by simpa using hcond, hxe ▸ hxm⟩, ?_⟩
      rintro ⟨q, hq, hqc, hqm⟩
      exact hneg (mkHostPattern ipn (q.drop 1))
        ⟨q, ⟨hq, by simpa using hqc⟩, rfl⟩ hqm
    · rintro ⟨⟨p, hp, hcond, hpm⟩, hneg⟩
      refine ⟨⟨mkHostPattern ipn p, ⟨p, ⟨hp, by simpa using hcond⟩, rfl⟩, hpm⟩, ?_⟩
      rintro x ⟨q, ⟨hq, hqc⟩, hxe⟩
      intro hxm
      exact hneg ⟨q, hq, by simpa using hqc, hxe ▸ hxm⟩
  · intro hall
    rw [HostList.init, HostList.matches, initGo_pos]
    have hfilter : (splitSep 44 field).filter
        (fun p => !(p.head? == some 33)) = [] := by
      rw [List.filter_eq_nil_iff]
      intro p hp
      simp [hall p hp]
    rw [hfilter]
    rfl

/-- Claim C10: with an empty host string, no parsed IP, and the default
port, every matcher kind returns false, so a lookup returns three empty
key lists for every known_hosts input that parses. -/
theorem claim_C10_empty_query {K : Type} (ipn : Bytes → Option IPNetwork)
    (a2b : Bytes → Option Bytes) (ik : Bytes → Option K)
    (hmacSha1 : Bytes → Bytes → Bytes) (ipStr : IPAddr → Bytes)
    (kh : Bytes) (entries : List (Entry K))
    (hp : _parse_entries ipn a2b ik kh = .ok entries) :
    (∀ ep : EntryPattern, ep.matches hmacSha1 [] [] none = false) ∧
    match_known_hosts ipn a2b ik hmacSha1 ipStr kh [] none DEFAULT_PORT =
      .ok ([], [], []) := by
  have hpat : ∀ ep : EntryPattern, ep.matches hmacSha1 [] [] none = false := by
    intro ep
    cases ep with
    | hashed hh => rfl
    | hostList hl =>
      rw [EntryPattern.matches, HostList.matches]
      have hpos : hl.pos_patterns.any (fun p => p.matches [] [] none) = false := by
        rw [List.any_eq_false]
        intro x hx
        cases x with
        | wildcard w => simp [HostPattern.matches, _WildcardPattern.matches]
        | cidr c => simp [HostPattern.matches, _CIDRPattern.matches]
      rw [hpos]
      rfl
  refine ⟨hpat, ?_⟩
  have hm : _match_entries hmacSha1 ipStr entries [] none DEFAULT_PORT =
      ([], [], []) := by
    show matchGo hmacSha1 [] [] none entries = ([], [], [])
    clear hp
    induction entries with
    | nil => rfl
    | cons e rest ih =>
      rw [matchGo]
      simp [hpat e.pattern, ih]
  rw [match_known_hosts, hp]
  show Except.ok (_match_entries hmacSha1 ipStr entries [] none DEFAULT_PORT) =
    Except.ok ([], [], [])
  rw [hm]

/-- Claim C1: when the port is not the default and the bracketed first
match pass finds no host keys and no CA keys (revoked keys found there,
whatever they are, do not suppress the retry), `match_known_hosts` returns
exactly the result of a second pass run with the unmodified host and
address at the default port, discarding the first pass's revoked keys. -/
theorem claim_C1_port_fallback {K : Type} (ipn : Bytes → Option IPNetwork)
    (a2b : Bytes → Option Bytes) (ik : Bytes → Option K)
    (hmacSha1 : Bytes → Bytes → Bytes) (ipStr : IPAddr → Bytes)
    (kh host : Bytes) (ip : Option IPAddr) (port : Nat)
    (entries : List (Entry K)) (rks : List K)
    (hp : _parse_entries ipn a2b ik kh = .ok entries)
    (hport : port ≠ DEFAULT_PORT)
    (hfirst : _match_entries hmacSha1 ipStr entries host ip port =
      ([], [], rks)) :
    match_known_hosts ipn a2b ik hmacSha1 ipStr kh host ip port =
      .ok (_match_entries hmacSha1 ipStr entries host ip DEFAULT_PORT) := by
  rw [match_known_hosts, hp]
  show (if port != DEFAULT_PORT &&
      (_match_entries hmacSha1 ipStr entries host ip port).1.isEmpty &&
      (_match_entries hmacSha1 ipStr entries host ip port).2.1.isEmpty then
    Except.ok (_match_entries hmacSha1 ipStr entries host ip DEFAULT_PORT)
  else Except.ok (_match_entries hmacSha1 ipStr entries host ip port)) = _
  rw [hfirst]
  simp [hport]

lemma parseLine_body {K : Type} (ipn : Bytes → Option IPNetwork)
    (a2b : Bytes → Option Bytes) (ik : Bytes → Option K) (raw : Bytes)
    (hstrip : stripB raw = raw) (hne : raw ≠ []) (h35 : raw.head? ≠ some 35)
    (marker : Option Bytes) (pattern key : Bytes)
    (hsel : splitEntryLine raw = .ok (marker, pattern, key))
    (hmk : markerOk marker = true) (h124 : pattern.head? ≠ some 124) :
    parseLine ipn a2b ik raw =
      (match ik key with
       | none => .ok none
       | some k => .ok (some ⟨.hostList (HostList.init ipn pattern), marker, k⟩)) := by
  rw [parseLine]
  simp only [hstrip]
  rw [if_neg hne, if_neg h35, hsel]
  show (if !markerOk marker then
      (Except.error ParseErr.invalidMarker : Except ParseErr (Option (Entry K)))
    else
      match
        (if pattern.head? = some 124 then
          (HashedHost.init a2b pattern).map EntryPattern.hashed
        else
          Except.ok (EntryPattern.hostList (HostList.init ipn pattern)) :
          Except ParseErr EntryPattern)
      with
      | .error e => .error e
      | .ok ep =>
        match ik key with
        | none => .ok none
        | some k => .ok (some ⟨ep, marker, k⟩)) = _
  rw [hmk, if_neg h124]
  rfl

/-- Claim C4: a structurally valid known_hosts line whose key material the
key importer does not recognize is silently skipped and parsing continues
with the remaining lines, while a line failing with any structural parse
error aborts parsing of the entire file with that error, returning no
partial entry list. -/
theorem claim_C4_parse_error_policy {K : Type} :
    (∀ (ipn : Bytes → Option IPNetwork) (a2b : Bytes → Option Bytes)
        (ik : Bytes → Option K) (pat kb : Bytes) (rest : List Bytes),
      (∀ b ∈ pat, isSp b = false) → pat ≠ [] →
      pat.head? ≠ some 35 → pat.head? ≠ some 64 → pat.head? ≠ some 124 →
      kb ≠ [] → (∀ c, kb.head? = some c → isSp c = false) →
      (∀ c, kb.getLast? = some c → isSp c = false) →
      ik kb = none →
      parseLine ipn a2b ik (pat ++ 32 :: kb) = .ok none ∧
      parseLines ipn a2b ik ((pat ++ 32 :: kb) :: rest) =
        parseLines ipn a2b ik rest) ∧
    (∀ (ipn : Bytes → Option IPNetwork) (a2b : Bytes → Option Bytes)
        (ik : Bytes → Option K) (line : Bytes) (rest : List Bytes)
        (e : ParseErr),
      parseLine ipn a2b ik line = .error e →
      parseLines ipn a2b ik (line :: rest) = .error e) := by
  constructor
  · intro ipn a2b ik pat kb rest hpat hpne h35 h64 h124 hkb hkh hkl hik
    have hline_ne : pat ++ 32 :: kb ≠ [] := by
      cases pat <;> simp
    have hhead : (pat ++ 32 :: kb).head? = pat.head? := by
      cases pat with
      | nil => exact absurd rfl hpne
      | cons p0 t => rfl
    have hheadns : ∀ c, (pat ++ 32 :: kb).head? = some c → isSp c = false := by
      intro c hc
      rw [hhead] at hc
      cases pat with
      | nil => exact absurd rfl hpne
      | cons p0 t =>
        have hcp : p0 = c := by simpa using hc
        exact hcp ▸ hpat p0 (by simp)
    have hlast : ∀ c, (pat ++ 32 :: kb).getLast? = some c → isSp c = false := by
      intro c hc
      have he : pat ++ 32 :: kb = (pat ++ [32]) ++ kb := by simp
      rw [he, getLast?_append_right hkb] at hc
      exact hkl c hc
    have hstrip : stripB (pat ++ 32 :: kb) = pat ++ 32 :: kb :=
      stripB_of_ends hheadns hlast
    have hsel : splitEntryLine (pat ++ 32 :: kb) = .ok (none, pat, kb) := by
      rw [splitEntryLine, if_neg (by rw [hhead]; exact h64),
        splitWsMax_two_tokens hpat hpne hkb hkh]
    have hpl : parseLine ipn a2b ik (pat ++ 32 :: kb) = .ok none := by
      rw [parseLine_body ipn a2b ik _ hstrip hline_ne
        (by rw [hhead]; exact h35) none pat kb hsel rfl h124, hik]
    refine ⟨hpl, ?_⟩
    rw [parseLines, hpl]
  · intro ipn a2b ik line rest e he
    rw [parseLines, he]

/-- Witness for C1: a file with the single entry `example.com AAAA`, looked
up for host `example.com` at port 2222, falls back to the default-port pass
and returns that entry's key. -/
theorem claim_C1_port_fallback_witness :
    match_known_hosts ip_network_model a2b_base64_model
      (fun b : Bytes => some b) (fun s m => s ++ m) (fun _ => [])
      [101, 120, 97, 109, 112, 108, 101, 46, 99, 111, 109, 32, 65, 65, 65, 65]
      [101, 120, 97, 109, 112, 108, 101, 46, 99, 111, 109] none 2222 =
      .ok ([[65, 65, 65, 65]], [], []) :=
  (claim_C1_port_fallback ip_network_model a2b_base64_model
    (fun b : Bytes => some b) (fun s m => s ++ m) (fun _ => [])
    [101, 120, 97, 109, 112, 108, 101, 46, 99, 111, 109, 32, 65, 65, 65, 65]
    [101, 120, 97, 109, 112, 108, 101, 46, 99, 111, 109] none 2222
    [⟨.hostList (HostList.init ip_network_model
      [101, 120, 97, 109, 112, 108, 101, 46, 99, 111, 109]), none,
      [65, 65, 65, 65]⟩] []
    rfl (by decide) rfl).trans rfl

/-- Witness for C2: the host list `!a`, having only a negated pattern,
matches nothing — not even `a` itself. -/
theorem claim_C2_host_list_semantics_witness :
    (HostList.init ip_network_model [33, 97]).matches [97] [] none = false :=
  (claim_C2_host_list_semantics ip_network_model [33, 97] [97] [] none).2
    (by decide)

/-- Witness for C3: with HMAC modelled as concatenation, salt `[1, 2]` and
host `[104]`, the constructed hashed entry stores the salt and digest and
matches the host. -/
theorem claim_C3_hashed_host_roundtrip_witness :
    HashedHost.init a2b_base64_model
        (124 :: (hmacSha1Magic ++ 124 :: (b2a_base64_model [1, 2] ++
          124 :: b2a_base64_model ((fun s m => s ++ m) [1, 2] [104])))) =
      .ok ⟨[1, 2], (fun s m => s ++ m) [1, 2] [104]⟩ ∧
    HashedHost.matches (fun s m => s ++ m)
      ⟨[1, 2], (fun s m => s ++ m) [1, 2] [104]⟩ [104] [] none = true := by
  have h := claim_C3_hashed_host_roundtrip.1 (fun s m => s ++ m) [1, 2] [104]
    (by decide) (by decide) (by decide)
  exact ⟨h.1, h.2 [] none⟩

/-- Witness for C4: a file whose first line `p1 AA` carries a key the
importer rejects and whose second line `p2 BB` carries an accepted key
yields exactly the one entry of the second line. -/
theorem claim_C4_parse_error_policy_witness :
    _parse_entries ip_network_model a2b_base64_model
      (fun b : Bytes => if b = [66, 66] then some b else none)
      [112, 49, 32, 65, 65, 10, 112, 50, 32, 66, 66] =
      .ok [⟨.hostList (HostList.init ip_network_model [112, 50]), none,
        [66, 66]⟩] := by
  have h := (claim_C4_parse_error_policy (K := Bytes)).1 ip_network_model
    a2b_base64_model (fun b : Bytes => if b = [66, 66] then some b else none)
    [112, 49] [65, 65] [[112, 50, 32, 66, 66]]
    (by decide) (by decide) (by decide) (by decide) (by decide) (by decide)
    (by
      intro c hc
      have hc' : some (65 : Nat) = some c := hc
      injection hc' with h65
      subst h65
      decide)
    (by
      intro c hc
      have hc' : some (65 : Nat) = some c := hc
      injection hc' with h65
      subst h65
      decide)
    (by decide)
  have e1 : _parse_entries ip_network_model a2b_base64_model
      (fun b : Bytes => if b = [66, 66] then some b else none)
      [112, 49, 32, 65, 65, 10, 112, 50, 32, 66, 66] =
      parseLines ip_network_model a2b_base64_model
        (fun b : Bytes => if b = [66, 66] then some b else none)
        (([112, 49] ++ 32 :: [65, 65]) :: [[112, 50, 32, 66, 66]]) := rfl
  rw [e1, h.2]
  rfl

/-- Witness for C5: `1.2.3.4` parses as a CIDR network and matches by IP
only, while `*.com` fails the CIDR parse and becomes a wildcard pattern. -/
theorem claim_C5_cidr_precedence_witness :
    mkHostPattern ip_network_model [49, 46, 50, 46, 51, 46, 52] =
      .cidr ⟨⟨4, 16909060, 32⟩⟩ ∧
    (mkHostPattern ip_network_model [49, 46, 50, 46, 51, 46, 52]).matches
      [120] [] (some ⟨4, 16909060⟩) = true ∧
    mkHostPattern ip_network_model [42, 46, 99, 111, 109] =
      .wildcard (_WildcardPattern.init [42, 46, 99, 111, 109]) := by
  have h1 := claim_C5_cidr_precedence.1 ip_network_model
    [49, 46, 50, 46, 51, 46, 52] ⟨4, 16909060, 32⟩ rfl
  have h2 := claim_C5_cidr_precedence.2 ip_network_model
    [42, 46, 99, 111, 109] rfl
  refine ⟨h1.1, ?_, h2⟩
  rw [h1.2 [120] [] (some ⟨4, 16909060⟩)]
  decide

/-- Witness for the amended C6: the plain pattern `host` (not
CIDR-parseable, no wildcards, no comma, no negation) self-matches. -/
theorem claim_C6_self_match_witness :
    (HostList.init ip_network_model [104, 111, 115, 116]).matches
      [104, 111, 115, 116] [] none = true :=
  claim_C6_self_match ip_network_model [104, 111, 115, 116] [] none
    (by decide) (by decide) (by decide) (by decide) (by decide) rfl

/-- Witness for C7: the field `|2|AAAA|AAAA` (valid base64, magic `2`)
fails with `UnsupportedHashType`. -/
theorem claim_C7_unsupported_hash_type_witness :
    HashedHost.init a2b_base64_model
      (124 :: ([50] ++ 124 :: ([65, 65, 65, 65] ++ 124 :: [65, 65, 65, 65]))) =
      .error .unsupportedHashType :=
  (claim_C7_unsupported_hash_type a2b_base64_model [50] [65, 65, 65, 65]
    [65, 65, 65, 65] [0, 0, 0] [0, 0, 0] (by decide) (by decide) (by decide)
    rfl rfl (by decide)).1

/-- Witness for C8: the pattern `h[]` matches exactly itself after bracket
escaping. -/
theorem claim_C8_wildcard_contract_witness :
    (_WildcardPattern.init [104, 91, 93]).matches [104, 91, 93] [] none =
      ((!([104, 91, 93] : Bytes).isEmpty &&
        globMatch (escapeBrackets [104, 91, 93]) [104, 91, 93]) ||
       (!([] : Bytes).isEmpty &&
        globMatch (escapeBrackets [104, 91, 93]) [])) ∧
    globMatch (escapeBrackets [104, 91, 93]) [104, 91, 93] = true :=
  ⟨claim_C8_wildcard_contract.1 [104, 91, 93] [104, 91, 93] [] none,
   (claim_C8_wildcard_contract.2 [104, 91, 93] [104, 91, 93]
     (by decide) (by decide)).mpr rfl⟩

/-- Witness for C9: the field `|2|A|A` is both malformed (a lone base64
character is undecodable — one data character more than a multiple of
four) and carries an unsupported magic; it fails with `InvalidHashFormat`,
showing the decode check runs first. -/
theorem claim_C9_hash_error_order_witness :
    HashedHost.init a2b_base64_model [124, 50, 124, 65, 124, 65] =
      .error .invalidHashFormat :=
  (claim_C9_hash_error_order a2b_base64_model).2.1
    [124, 50, 124, 65, 124, 65] [50] [65] [65] rfl (Or.inl rfl)

/-- Witness for C10: a lookup with empty host, no IP, and the default port
in a file with one entry for `example.com` returns three empty lists. -/
theorem claim_C10_empty_query_witness :
    match_known_hosts ip_network_model a2b_base64_model
      (fun b : Bytes => some b) (fun s m => s ++ m) (fun _ => [])
      [101, 120, 97, 109, 112, 108, 101, 46, 99, 111, 109, 32, 65]
      [] none DEFAULT_PORT = .ok ([], [], []) :=
  (claim_C10_empty_query ip_network_model a2b_base64_model
    (fun b : Bytes => some b) (fun s m => s ++ m) (fun _ => [])
    [101, 120, 97, 109, 112, 108, 101, 46, 99, 111, 109, 32, 65]
    [⟨.hostList (HostList.init ip_network_model
      [101, 120, 97, 109, 112, 108, 101, 46, 99, 111, 109]), none, [65]⟩]
    rfl).2
